import Mathlib

/-!
Verification development for the agent-rules-mcp repository.

The repository is a small tool-serving process with two services:

* CursorRulesService (src/services/cursor-rules-service.ts): loads rule
  documents from a rules directory, caches them per project root and
  matches them against target file paths with glob patterns.
* AgentsService (agents-service.ts): single-document variant loading the
  fixed AGENTS.md file per project root.

Both services consume a frontmatter parser (frontmatter-parser.ts).  Only
the tests of that parser are present in the repository snapshot, so the
parser itself is modelled from the specification (section 4.1); definitions
modelled this way carry a doc comment starting with the words
Modelled from the spec.

All definitions are executable (structural or fuel-based recursion) so
concrete runs can be settled by kernel evaluation.
-/

namespace AgentRules

/-! ## String helpers (models of the JavaScript string operations used) -/

/-- The single quote character, written by code point to keep sources plain. -/
def squote : Char := Char.ofNat 39

/-- Whitespace test matching the characters trimmed by JavaScript trim
for the inputs that occur here. -/
def isWsChar (c : Char) : Bool :=
  c = ' ' || c = '\t' || c = '\n' || c = '\r'

/-- Auxiliary splitter: splits a character list at every occurrence of the
separator character, accumulating the current piece in reverse. -/
def splitCharAux (sep : Char) : List Char → List Char → List String
  | [], acc => [String.mk acc.reverse]
  | c :: cs, acc =>
    if c = sep then
      String.mk acc.reverse :: splitCharAux sep cs []
    else
      splitCharAux sep cs (c :: acc)

/-- Model of JavaScript split with a one-character separator. -/
def splitChar (sep : Char) (s : String) : List String :=
  splitCharAux sep s.toList []

/-- Model of JavaScript trim (leading and trailing whitespace removed). -/
def trimStr (s : String) : String :=
  String.mk (((s.toList.dropWhile isWsChar).reverse.dropWhile isWsChar).reverse)

/-- Model of startsWith for a one-piece needle. -/
def strStartsWith (s p : String) : Bool :=
  p.toList.isPrefixOf s.toList

/-- Model of endsWith. -/
def strEndsWith (s p : String) : Bool :=
  p.toList.reverse.isPrefixOf s.toList.reverse

/-- Drop the first character, model of drop(1) / slice(1). -/
def strDropLeft (s : String) (n : Nat) : String :=
  String.mk (s.toList.drop n)

/-- Drop the last n characters, model of slice(0, -n). -/
def strDropRight (s : String) (n : Nat) : String :=
  String.mk (s.toList.take (s.toList.length - n))

/-! ## Frontmatter values and mappings -/

/-- Metadata values produced by the frontmatter parser: strings, booleans,
or arrays of strings, the restricted grammar of the header block. -/
inductive FMValue where
  | str (s : String)
  | bool (b : Bool)
  | arr (xs : List String)
deriving DecidableEq

/-- The decoded header mapping, keyed by trimmed header keys. -/
abbrev Frontmatter := List (String × FMValue)

/-- Lookup of a key in the mapping. -/
def fmLookup (fm : Frontmatter) (k : String) : Option FMValue :=
  match fm.find? (fun p => p.1 = k) with
  | some p => some p.2
  | none => none

/-- Assignment into the mapping: last occurrence of a repeated key wins,
as with property assignment on a JavaScript object. -/
def fmInsert (fm : Frontmatter) (k : String) (v : FMValue) : Frontmatter :=
  if (fm.find? (fun p => p.1 = k)).isSome then
    fm.map (fun p => if p.1 = k then (k, v) else p)
  else
    fm ++ [(k, v)]

/-- JavaScript truthiness of a metadata value: the empty string and the
boolean false are falsy, every other value here is truthy. -/
def fmTruthy : FMValue → Bool
  | FMValue.str s => s ≠ ""
  | FMValue.bool b => b
  | FMValue.arr _ => true

/-- String rendering of a metadata value, the JavaScript String coercion. -/
def fmAsString : FMValue → String
  | FMValue.str s => s
  | FMValue.bool b => if b then "true" else "false"
  | FMValue.arr xs => String.intercalate "," xs

/-! ## Strict structured-array decoding -/

/-- Skip leading whitespace of a character stream. -/
def skipWs : List Char → List Char
  | [] => []
  | c :: cs => if isWsChar c then skipWs cs else c :: cs

/-- Modelled from the spec: the body of a double-quoted element of a
strict JSON-style array (frontmatter-parser.ts is absent from the
snapshot).  Consumes characters up to the closing double quote, a
backslash escaping the next character. -/
def parseJStrAux : List Char → List Char → Option (String × List Char)
  | [], _ => none
  | c :: cs, acc =>
    if c = '"' then
      some (String.mk acc.reverse, cs)
    else if c = '\\' then
      match cs with
      | [] => none
      | d :: ds => parseJStrAux ds (d :: acc)
    else
      parseJStrAux cs (c :: acc)

/-- Modelled from the spec: the element list of a strict JSON-style array
(frontmatter-parser.ts is absent from the snapshot).  Expects one
double-quoted element, then either the closing bracket followed only by
whitespace, or a comma and further elements.  Fuel bounds the recursion. -/
def parseElems : Nat → List Char → Option (List String)
  | 0, _ => none
  | fuel + 1, cs =>
    match skipWs cs with
    | '"' :: rest =>
      match parseJStrAux rest [] with
      | none => none
      | some (s, rest2) =>
        match skipWs rest2 with
        | ']' :: rest3 => if (skipWs rest3).isEmpty then some [s] else none
        | ',' :: rest4 => (parseElems fuel rest4).map (fun t => s :: t)
        | _ => none
    | _ => none

/-- Modelled from the spec: strict structured-array decoding of a header
value (frontmatter-parser.ts is absent from the snapshot).  Valid
JSON-style array syntax with double-quoted elements; any other input is
a decoding failure. -/
def strictJsonArray (v : String) : Option (List String) :=
  match skipWs v.toList with
  | '[' :: rest =>
    match skipWs rest with
    | ']' :: rest2 => if (skipWs rest2).isEmpty then some [] else none
    | other => parseElems (v.toList.length + 1) other
  | _ => none

/-- Strip one layer of a leading and of a trailing single or double quote. -/
def stripQuote (s : String) : String :=
  let s1 :=
    if strStartsWith s "\"" || strStartsWith s (String.mk [squote]) then
      strDropLeft s 1
    else s
  if strEndsWith s1 "\"" || strEndsWith s1 (String.mk [squote]) then
    strDropRight s1 1
  else s1

/-- Modelled from the spec: the manual fallback decoding of a bracketed
header value (frontmatter-parser.ts is absent from the snapshot).
Strip the outer brackets, split on commas, trim each piece, strip one
layer of leading or trailing single or double quotes from each piece,
drop empty pieces. -/
def manualFallback (v : String) : List String :=
  let inner := strDropRight (strDropLeft v 1) 1
  (((splitChar ',' inner).map (fun p => stripQuote (trimStr p))).filter
    (fun p => p ≠ ""))

/-- Modelled from the spec: decoding of a raw header value by type
sniffing (frontmatter-parser.ts is absent from the snapshot).  Bracketed
values try the strict array decoding and fall back to the manual
decoding; the literals true and false become booleans; anything else is
the string itself. -/
def decodeValue (raw : String) : FMValue :=
  if strStartsWith raw "[" && strEndsWith raw "]" then
    match strictJsonArray raw with
    | some xs => FMValue.arr xs
    | none => FMValue.arr (manualFallback raw)
  else if raw = "true" then FMValue.bool true
  else if raw = "false" then FMValue.bool false
  else FMValue.str raw

/-- Modelled from the spec: decoding of one header line
(frontmatter-parser.ts is absent from the snapshot).  The first colon
splits key from raw value; a line with no colon is silently skipped. -/
def parseHeaderLine (fm : Frontmatter) (line : String) : Frontmatter :=
  match splitChar ':' line with
  | [] => fm
  | [_] => fm
  | k :: rest =>
    fmInsert fm (trimStr k) (decodeValue (trimStr (String.intercalate ":" rest)))

/-- Result of the frontmatter parser: the decoded header mapping and the
document body. -/
structure ParsedDoc where
  frontmatter : Frontmatter
  content : String
deriving DecidableEq

/-- Index of the first line that is exactly the three-hyphen delimiter. -/
def findDelimIdx : List String → Option Nat
  | [] => none
  | l :: rest =>
    if l = "---" then some 0 else (findDelimIdx rest).map (fun i => i + 1)

/-- Modelled from the spec: the frontmatter parser parseFrontmatter
(frontmatter-parser.ts is absent from the snapshot; only its tests are
present).  A document whose first line is not exactly the three-hyphen
delimiter, or whose opening delimiter is never closed, is returned
unchanged with empty metadata; otherwise the lines strictly between the
delimiters are decoded as the header and the rest, rejoined and trimmed,
is the body. -/
def parseFrontmatter (document : String) : ParsedDoc :=
  match splitChar '\n' document with
  | [] => ⟨[], document⟩
  | first :: rest =>
    if first = "---" then
      match findDelimIdx rest with
      | some i =>
        let header := rest.take i
        let body := trimStr (String.intercalate "\n" (rest.drop (i + 1)))
        ⟨header.foldl parseHeaderLine [], body⟩
      | none => ⟨[], document⟩
    else ⟨[], document⟩

/-! ## Path helpers (models of the node path functions used) -/

/-- Path concatenation, model of join for the fixed shapes used here. -/
def joinPath (a b : String) : String := a ++ "/" ++ b

/-- Split a path into its slash-separated segments. -/
def splitSegs (p : String) : List String := splitChar '/' p

/-- Normalize path segments: empty and current-directory segments vanish,
a parent segment removes the previous one, clamped at the root. -/
def normalizeSegs (segs : List String) : List String :=
  segs.foldl
    (fun acc seg =>
      if seg = "" || seg = "." then acc
      else if seg = ".." then acc.dropLast
      else acc ++ [seg])
    []

/-- Model of node resolve: a relative path is resolved against the
working directory, and the result is normalized to an absolute path. -/
def resolvePath (cwd p : String) : String :=
  let full := if strStartsWith p "/" then p else cwd ++ "/" ++ p
  "/" ++ String.intercalate "/" (normalizeSegs (splitSegs full))

/-- Drop the shared leading segments of two segment lists. -/
def dropSharedSegs : List String → List String → (List String × List String)
  | a :: xs, b :: ys =>
    if a = b then dropSharedSegs xs ys else (a :: xs, b :: ys)
  | xs, ys => (xs, ys)

/-- Model of node relative: both arguments are resolved, the shared lead
is dropped, and the remainder of the source becomes parent hops. -/
def relativePath (cwd fromP toP : String) : String :=
  let f := normalizeSegs (splitSegs (resolvePath cwd fromP))
  let t := normalizeSegs (splitSegs (resolvePath cwd toP))
  let (fr, tr) := dropSharedSegs f t
  String.intercalate "/" (List.replicate fr.length ".." ++ tr)

/-- Model of node basename: the last nonempty slash-separated segment. -/
def basename (p : String) : String :=
  (((splitSegs p).filter (fun s => s ≠ "")).getLastD "")

/-- Model of node extname: the final dot-suffix of the base name, empty
when the only dot is the leading one of a dotfile. -/
def extname (p : String) : String :=
  let b := basename p
  match splitChar '.' b with
  | [] => ""
  | [_] => ""
  | x :: xs => if x = "" && xs.length = 1 then "" else "." ++ xs.getLastD ""

/-! ## Glob matching (model of the minimatch library call) -/

/-- Fuel-bounded matcher of one glob segment against one path segment:
a star matches any run of characters inside the segment, a question mark
one character, anything else itself.  The fuel exceeds the combined
length of both inputs, so it never runs out. -/
def segMatchFuel : Nat → List Char → List Char → Bool
  | 0, _, _ => false
  | fuel + 1, p, s =>
    match p, s with
    | [], s2 => s2.isEmpty
    | '*' :: ps, s2 =>
      segMatchFuel fuel ps s2 ||
        (match s2 with
         | [] => false
         | _ :: cs => segMatchFuel fuel ('*' :: ps) cs)
    | '?' :: ps, s2 =>
      (match s2 with
       | [] => false
       | _ :: cs => segMatchFuel fuel ps cs)
    | c :: ps, s2 =>
      (match s2 with
       | [] => false
       | d :: cs => c = d && segMatchFuel fuel ps cs)

/-- One-segment glob match. -/
def segMatch (p s : List Char) : Bool :=
  segMatchFuel (p.length + s.length + 1) p s

/-- Fuel-bounded matcher of glob segments against path segments: the
double-star segment matches any number of whole path segments. -/
def globSegsFuel : Nat → List String → List String → Bool
  | 0, _, _ => false
  | fuel + 1, p, s =>
    match p with
    | [] => s.isEmpty
    | seg :: ps =>
      if seg = "**" then
        globSegsFuel fuel ps s ||
          (match s with
           | [] => false
           | _ :: tail => globSegsFuel fuel (seg :: ps) tail)
      else
        match s with
        | [] => false
        | t :: tail => segMatch seg.toList t.toList && globSegsFuel fuel ps tail

/-- Glob match of segment lists. -/
def globSegs (p s : List String) : Bool :=
  globSegsFuel (p.length + s.length + 1) p s

/-- Model of the minimatch library call: the target path matches the
glob pattern, with star confined to one path segment and double star
ranging over whole segments. -/
def minimatch (target pattern : String) : Bool :=
  globSegs (splitSegs pattern) (splitSegs target)

/-! ## The per-root cache (model of the private Map fields)

Optional root arguments of the services are modelled as plain strings,
with the empty string standing for an absent argument: in the source both
the absent and the empty argument are falsy and behave identically in
every use (the root default and the clear-all branch). -/

/-- A cache keyed by project-root strings, in insertion order. -/
abbrev Cache (α : Type) := List (String × α)

/-- Map lookup. -/
def cacheGet {α : Type} (c : Cache α) (k : String) : Option α :=
  match c.find? (fun p => p.1 = k) with
  | some p => some p.2
  | none => none

/-- Map membership test. -/
def cacheHas {α : Type} (c : Cache α) (k : String) : Bool :=
  (cacheGet c k).isSome

/-- Map assignment: an existing key is overwritten in place, a new key is
appended, as with a JavaScript Map. -/
def cacheSet {α : Type} : Cache α → String → α → Cache α
  | [], k, v => [(k, v)]
  | p :: rest, k, v =>
    if p.1 = k then (k, v) :: rest else p :: cacheSet rest k v

/-- Map deletion of one key. -/
def cacheDelete {α : Type} (c : Cache α) (k : String) : Cache α :=
  c.filter (fun p => p.1 ≠ k)

/-- Model of clearCache, identical in CursorRulesService and
AgentsService: a truthy root deletes that one entry, a falsy root clears
the whole map. -/
def clearCache {α : Type} (c : Cache α) (projectRoot : String) : Cache α :=
  if projectRoot ≠ "" then cacheDelete c projectRoot else []

/-! ## CursorRulesService -/

/-- One parsed rule document, interface CursorRule. -/
structure CursorRule where
  file : String
  description : String
  globs : List String
  alwaysApply : Bool
  content : String
deriving DecidableEq

/-- The cache of CursorRulesService. -/
abbrev RulesCache := Cache (List CursorRule)

/-- The filesystem as seen by CursorRulesService: listing a directory and
reading a file may each fail, a failed read carrying its error text. -/
structure FS where
  readdir : String → Option (List String)
  readFile : String → Except String String

/-- The rules directory of a project root, root/.cursor/rules. -/
def rulesDirOf (rootDir : String) : String :=
  joinPath (joinPath rootDir ".cursor") "rules"

/-- The description field of a rule record: the metadata value when
truthy, rendered as a string, else the fixed default. -/
def normDescription (fm : Frontmatter) (dflt : String) : String :=
  match fmLookup fm "description" with
  | some v => if fmTruthy v then fmAsString v else dflt
  | none => dflt

/-- The globs field of a rule record: an array is kept, any other truthy
value is wrapped in a one-element array, a falsy or absent value becomes
the empty array. -/
def normGlobs (fm : Frontmatter) : List String :=
  match fmLookup fm "globs" with
  | some (FMValue.arr xs) => xs
  | some v => if fmTruthy v then [fmAsString v] else []
  | none => []

/-- The alwaysApply field of a rule record: the truthiness of the
metadata value, absent meaning false, after alwaysApply or-else false. -/
def normAlwaysApply (fm : Frontmatter) : Bool :=
  match fmLookup fm "alwaysApply" with
  | some v => fmTruthy v
  | none => false

/-- Construction of one rule record from a file name and its contents,
the push inside the loadRules loop. -/
def mkCursorRule (file content : String) : CursorRule :=
  let pd := parseFrontmatter content
  { file := file
    description := normDescription pd.frontmatter "No description"
    globs := normGlobs pd.frontmatter
    alwaysApply := normAlwaysApply pd.frontmatter
    content := pd.content }

/-- The loadRules loop over the mdc entries: a successful read yields a
record, a failed read yields one failure message, siblings unaffected. -/
def processRuleFiles (fs : FS) (rulesDir : String) :
    List String → List CursorRule × List String
  | [] => ([], [])
  | f :: rest =>
    let tail := processRuleFiles fs rulesDir rest
    match fs.readFile (joinPath rulesDir f) with
    | Except.ok content => (mkCursorRule f content :: tail.1, tail.2)
    | Except.error e =>
      (tail.1, ("Error reading rule file " ++ f ++ ": " ++ e) :: tail.2)

/-- The per-rule line of the loadRules summary message. -/
def ruleSummary (r : CursorRule) : String :=
  "• " ++ r.file ++ ": " ++ r.description ++ "\n  Globs: " ++
    String.intercalate ", " r.globs ++ "\n  Always apply: " ++
    (if r.alwaysApply then "true" else "false")

/-- Result shape of loadRules; an absent error flag is modelled as false
and absent fileErrors as the empty list. -/
structure LoadRulesResult where
  rules : List CursorRule
  message : String
  error : Bool
  fileErrors : List String
deriving DecidableEq

/-- Model of CursorRulesService.loadRules, returning the result together
with the updated cache.  An unlistable rules directory fails wholesale
with the cache untouched; otherwise the mdc entries are processed
independently and the record list unconditionally replaces the cache
entry for the root. -/
def loadRules (fs : FS) (cache : RulesCache) (projectRoot cwd : String) :
    LoadRulesResult × RulesCache :=
  let rootDir := if projectRoot = "" then cwd else projectRoot
  let rulesDir := rulesDirOf rootDir
  match fs.readdir rulesDir with
  | none =>
    ({ rules := []
       message := "No .cursor/rules directory found at " ++ rulesDir
       error := true
       fileErrors := [] }, cache)
  | some files =>
    let mdcFiles := files.filter (fun f => extname f = ".mdc")
    let processed := processRuleFiles fs rulesDir mdcFiles
    let rules := processed.1
    let fileErrors := processed.2
    let cache1 := cacheSet cache rootDir rules
    let baseMsg :=
      "Loaded " ++ toString rules.length ++ " rule files from " ++ rulesDir ++
        ":\n\n" ++ String.intercalate "\n\n" (rules.map ruleSummary)
    let message :=
      if fileErrors.isEmpty then baseMsg
      else
        baseMsg ++ "\n\nWarnings:\n" ++
          String.intercalate "\n" (fileErrors.map (fun e => "• " ++ e))
    ({ rules := rules
       message := message
       error := false
       fileErrors := fileErrors }, cache1)

/-- The inner loop of getRulesForFile over one rule's globs: true at the
first pattern matching the relative path or the base name. -/
def ruleGlobsMatch (relPath base : String) : List String → Bool
  | [] => false
  | g :: gs =>
    if minimatch relPath g || minimatch base g then true
    else ruleGlobsMatch relPath base gs

/-- The outer loop of getRulesForFile: an always-apply rule is included
at once, otherwise the rule is included at its first matching pattern. -/
def matchRules (relPath base : String) : List CursorRule → List CursorRule
  | [] => []
  | r :: rs =>
    if r.alwaysApply then r :: matchRules relPath base rs
    else if ruleGlobsMatch relPath base r.globs then r :: matchRules relPath base rs
    else matchRules relPath base rs

/-- The per-rule block of the getRulesForFile message. -/
def ruleText (r : CursorRule) : String :=
  "## " ++ r.description ++ " (" ++ r.file ++ ")\n*" ++
    (if r.alwaysApply then "Always applies"
     else "Applies to: " ++ String.intercalate ", " r.globs) ++
    "*\n\n" ++ r.content

/-- Result shape of getRulesForFile; an absent error flag is false. -/
structure GetRulesResult where
  rules : List CursorRule
  message : String
  error : Bool
deriving DecidableEq

/-- Model of CursorRulesService.getRulesForFile, returning the result
together with the updated cache.  A missing cache entry triggers one
implicit load; an empty effective rule list is the error outcome; then
the matcher selects the applicable rules. -/
def getRulesForFile (fs : FS) (cache : RulesCache)
    (filePath projectRoot cwd : String) : GetRulesResult × RulesCache :=
  let rootDir := if projectRoot = "" then cwd else projectRoot
  let cache1 :=
    if cacheHas cache rootDir then cache
    else (loadRules fs cache rootDir cwd).2
  let rules := (cacheGet cache1 rootDir).getD []
  if rules.isEmpty then
    ({ rules := []
       message := "No Cursor rules found. Run load_cursor_rules first."
       error := true }, cache1)
  else
    let relPath := relativePath cwd rootDir (resolvePath cwd filePath)
    let base := basename filePath
    let applicable := matchRules relPath base rules
    if applicable.isEmpty then
      ({ rules := []
         message := "No Cursor rules apply to " ++ filePath ++ " (" ++ relPath ++ ")"
         error := false }, cache1)
    else
      ({ rules := applicable
         message := "Applicable Cursor rules for " ++ filePath ++ ":\n\n" ++
           String.intercalate "\n\n---\n\n" (applicable.map ruleText)
         error := false }, cache1)

/-- Model of CursorRulesService.getCachedRules. -/
def getCachedRules (cache : RulesCache) (projectRoot cwd : String) :
    List CursorRule :=
  let rootDir := if projectRoot = "" then cwd else projectRoot
  (cacheGet cache rootDir).getD []

/-! ## AgentsService -/

/-- One parsed agent document, interface AgentRule. -/
structure AgentRule where
  file : String
  description : String
  content : String
  metadata : Frontmatter
deriving DecidableEq

/-- The cache of AgentsService. -/
abbrev AgentsCache := Cache AgentRule

/-- The filesystem as seen by AgentsService: the access probe and the
read, the read carrying its error text on failure. -/
structure AgentFS where
  access : String → Bool
  readFile : String → Except String String

/-- Result shape of loadAgents and getAgents; an absent error flag is
modelled as false. -/
structure AgentsResult where
  agents : Option AgentRule
  message : String
  error : Bool
deriving DecidableEq

/-- Construction of the agent record from the document contents. -/
def mkAgentRule (content : String) : AgentRule :=
  let pd := parseFrontmatter content
  { file := "AGENTS.md"
    description := normDescription pd.frontmatter "Agent rules and guidelines"
    content := pd.content
    metadata := pd.frontmatter }

/-- Model of AgentsService.loadAgents, returning the result together with
the updated cache.  A failed access probe or a failed read leaves the
cache untouched; a successful read replaces the cache entry. -/
def loadAgents (fs : AgentFS) (cache : AgentsCache) (projectRoot cwd : String) :
    AgentsResult × AgentsCache :=
  let rootDir := if projectRoot = "" then cwd else projectRoot
  let agentsPath := joinPath rootDir "AGENTS.md"
  if fs.access agentsPath then
    match fs.readFile agentsPath with
    | Except.error e =>
      ({ agents := none
         message := "Error loading AGENTS.md: " ++ e
         error := true }, cache)
    | Except.ok content =>
      let agent := mkAgentRule content
      ({ agents := some agent
         message := "Loaded AGENTS.md from " ++
           (agentsPath ++ (":\n\n• " ++ agent.description))
         error := false }, cacheSet cache rootDir agent)
  else
    ({ agents := none
       message := "No AGENTS.md file found at " ++ agentsPath
       error := true }, cache)

/-- The tail of getAgents after the implicit load: render the cached
document, or report that none is loaded. -/
def renderAgents (cache : AgentsCache) (rootDir : String) :
    AgentsResult × AgentsCache :=
  match cacheGet cache rootDir with
  | none =>
    ({ agents := none
       message := "No AGENTS.md found. Run load_agents first."
       error := true }, cache)
  | some a =>
    ({ agents := some a
       message := "AGENTS.md content:\n\n## " ++
         (a.description ++ ("\n\n" ++ a.content))
       error := false }, cache)

/-- Model of AgentsService.getAgents, returning the result together with
the updated cache.  A missing cache entry triggers one implicit load
whose failure is forwarded; otherwise the cached document is rendered. -/
def getAgents (fs : AgentFS) (cache : AgentsCache) (projectRoot cwd : String) :
    AgentsResult × AgentsCache :=
  let rootDir := if projectRoot = "" then cwd else projectRoot
  if cacheHas cache rootDir then
    renderAgents cache rootDir
  else
    let r := loadAgents fs cache rootDir cwd
    if r.1.error then
      ({ agents := none, message := r.1.message, error := true }, r.2)
    else
      renderAgents r.2 rootDir

/-! ## Concrete fixtures used by the witnesses and counterexamples -/

/-- A cached rule from an earlier load, used to observe cache framing. -/
def oldRule : CursorRule := ⟨"old.mdc", "Old", [], true, "old"⟩

/-- A cache holding one entry for a different root. -/
def prevCache : RulesCache := [("/prev", [oldRule])]

/-- A filesystem whose rules directory cannot be listed. -/
def fsMissing : FS := ⟨fun _ => none, fun _ => Except.error "Directory not found"⟩

/-- A filesystem whose directory lists one mdc file that cannot be read. -/
def fsAllFail : FS :=
  ⟨fun _ => some ["bad.mdc"], fun _ => Except.error "Permission denied"⟩

/-- A filesystem with two readable mdc files, one unreadable mdc file and
one entry of another extension. -/
def fsPartial : FS :=
  ⟨fun _ => some ["good.mdc", "bad.mdc", "another.mdc", "ignored.txt"],
    fun f =>
      if f = "/test/project/.cursor/rules/bad.mdc" then
        Except.error "Permission denied"
      else Except.ok "---\ndescription: Good rule\n---\ngood content"⟩

/-- A filesystem whose rules directory lists successfully but is empty. -/
def fsEmptyDir : FS := ⟨fun _ => some [], fun _ => Except.error "unused"⟩

/-- An agent filesystem with a readable AGENTS.md everywhere. -/
def afsOk : AgentFS :=
  ⟨fun _ => true, fun _ => Except.ok "---\ndescription: My agents\n---\nAgent body"⟩

/-- An agent filesystem with no AGENTS.md anywhere. -/
def afsMissing : AgentFS := ⟨fun _ => false, fun _ => Except.error "unused"⟩

/-- A rule that only applies to ts files. -/
def tsOnlyRule : CursorRule := ⟨"ts.mdc", "TS", ["*.ts"], false, "ts body"⟩

/-- A cache whose entry for the root holds only the ts rule. -/
def tsCache : RulesCache := [("/p", [tsOnlyRule])]

/-- A cache whose entry for the root is the empty rule list, as left by a
successful load of a directory with no mdc files. -/
def emptyEntryCache : RulesCache := [("/p", ([] : List CursorRule))]

/-! ## Helper lemmas -/

/-- A delimiter line absent from a line list is never found by the scan. -/
lemma findDelimIdx_eq_none_of_not_mem (l : List String) (h : "---" ∉ l) :
    findDelimIdx l = none := by
  induction l with
  | nil => rfl
  | cons a rest ih =>
    have ha : ¬(a = "---") := fun hEq => h (hEq ▸ List.mem_cons_self a rest)
    have hrest : "---" ∉ rest := fun hm => h (List.mem_cons_of_mem a hm)
    simp [findDelimIdx, ha, ih hrest]

/-! ## Claim theorems -/

/-- C5: for every input document, if the first line is not exactly the
three-hyphen delimiter, or the opening delimiter is never followed by a
closing delimiter line before end of input, the frontmatter parser
returns empty metadata and the original document text unchanged,
verbatim. -/
theorem C5_no_header_returns_document (doc : String)
    (h : (splitChar '\n' doc).headD "" ≠ "---" ∨
      "---" ∉ (splitChar '\n' doc).tail) :
    (parseFrontmatter doc).frontmatter = [] ∧
      (parseFrontmatter doc).content = doc := by
  cases hl : splitChar '\n' doc with
  | nil =>
    simp only [parseFrontmatter]
    rw [hl]
    exact ⟨rfl, rfl⟩
  | cons first rest =>
    rw [hl] at h
    simp only [List.headD_cons, List.tail_cons] at h
    by_cases hf : first = "---"
    · have hmem : "---" ∉ rest := by
        rcases h with h1 | h2
        · exact absurd hf h1
        · exact h2
      have hnone := findDelimIdx_eq_none_of_not_mem rest hmem
      simp only [parseFrontmatter]
      rw [hl]
      simp [hf, hnone]
    · simp only [parseFrontmatter]
      rw [hl]
      simp [hf]

/-- Witness for C5 at the two documents of the testable properties: one
with no opening delimiter, one with an unterminated header. -/
theorem C5_no_header_returns_document_witness :
    ((parseFrontmatter "This is plain content without frontmatter").frontmatter
        = [] ∧
      (parseFrontmatter "This is plain content without frontmatter").content
        = "This is plain content without frontmatter") ∧
    ((parseFrontmatter
        "---\ndescription: Test\nThis is content without closing delimiter").frontmatter
        = [] ∧
      (parseFrontmatter
        "---\ndescription: Test\nThis is content without closing delimiter").content
        = "---\ndescription: Test\nThis is content without closing delimiter") :=
  ⟨C5_no_header_returns_document
      "This is plain content without frontmatter" (by decide),
    C5_no_header_returns_document
      "---\ndescription: Test\nThis is content without closing delimiter"
      (by decide)⟩

/-- C6: every bracket-delimited header value is decoded by first
attempting strict JSON-style array parsing, falling back on failure to
the manual decoding (strip outer brackets, split on commas, trim each
piece, strip one layer of leading or trailing quotes, drop empty
pieces); the quoted array and its unquoted malformed equivalent decode
to the same two-element sequence. -/
theorem C6_bracket_value_decoding :
    (∀ v : String, strStartsWith v "[" = true → strEndsWith v "]" = true →
      decodeValue v =
        match strictJsonArray v with
        | some xs => FMValue.arr xs
        | none => FMValue.arr (manualFallback v)) ∧
    strictJsonArray "[\"*.ts\", \"*.js\"]" = some ["*.ts", "*.js"] ∧
    decodeValue "[\"*.ts\", \"*.js\"]" = FMValue.arr ["*.ts", "*.js"] ∧
    strictJsonArray "[*.ts, *.js]" = none ∧
    manualFallback "[*.ts, *.js]" = ["*.ts", "*.js"] ∧
    decodeValue "[*.ts, *.js]" = FMValue.arr ["*.ts", "*.js"] := by
  refine ⟨?_, by decide, by decide, by decide, by decide, by decide⟩
  intro v h1 h2
  simp [decodeValue, h1, h2]

/-- Witness for C6 at a concrete bracketed value. -/
theorem C6_bracket_value_decoding_witness :
    decodeValue "[a, b]" =
      (match strictJsonArray "[a, b]" with
       | some xs => FMValue.arr xs
       | none => FMValue.arr (manualFallback "[a, b]")) :=
  C6_bracket_value_decoding.1 "[a, b]" (by decide) (by decide)

/-- The inner glob loop is the first-match-wins disjunction over the
pattern list. -/
lemma ruleGlobsMatch_eq_any (rel base : String) (gs : List String) :
    ruleGlobsMatch rel base gs =
      gs.any (fun g => minimatch rel g || minimatch base g) := by
  induction gs with
  | nil => rfl
  | cons g gs ih =>
    by_cases h : (minimatch rel g || minimatch base g) = true
    · simp [ruleGlobsMatch, h]
    · simp [ruleGlobsMatch, h, ih]

/-- The matcher loop is the order-preserving filter by the per-rule
inclusion test. -/
lemma matchRules_eq_filter (rel base : String) (rules : List CursorRule) :
    matchRules rel base rules =
      rules.filter (fun r => r.alwaysApply || ruleGlobsMatch rel base r.globs) := by
  induction rules with
  | nil => rfl
  | cons r rs ih =>
    by_cases h1 : r.alwaysApply = true
    · simp [matchRules, h1, ih, List.filter_cons]
    · by_cases h2 : ruleGlobsMatch rel base r.globs = true
      · simp [matchRules, h1, h2, ih, List.filter_cons]
      · simp [matchRules, h1, h2, ih, List.filter_cons]

/-- C1: the matcher includes a rule exactly when its alwaysApply flag is
true or some pattern of the rule glob-matches the target path made
relative to the root after resolution, or the base name of the target;
the result is a sublist of the input (order preserved, each input
occurrence contributing at most once), and a rule with no patterns and
alwaysApply false is never included. -/
theorem C1_matcher_characterization (rules : List CursorRule)
    (filePath projectRoot cwd relPath base : String)
    (hrel : relPath = relativePath cwd projectRoot (resolvePath cwd filePath))
    (hbase : base = basename filePath) :
    matchRules relPath base rules =
      rules.filter
        (fun r => r.alwaysApply ||
          r.globs.any (fun g => minimatch relPath g || minimatch base g)) ∧
    (matchRules relPath base rules).Sublist rules ∧
    (∀ r : CursorRule,
      (matchRules relPath base rules).count r ≤ rules.count r) ∧
    (∀ r : CursorRule, r ∈ matchRules relPath base rules ↔
      r ∈ rules ∧ (r.alwaysApply = true ∨
        ∃ g ∈ r.globs, minimatch relPath g = true ∨ minimatch base g = true)) ∧
    (∀ r : CursorRule, r ∈ matchRules relPath base rules →
      r.alwaysApply = false → r.globs ≠ []) := by
  have hpred :
      (fun r : CursorRule => r.alwaysApply || ruleGlobsMatch relPath base r.globs) =
        (fun r : CursorRule => r.alwaysApply ||
          r.globs.any (fun g => minimatch relPath g || minimatch base g)) := by
    funext r
    rw [ruleGlobsMatch_eq_any]
  have hfe : matchRules relPath base rules =
      rules.filter
        (fun r => r.alwaysApply ||
          r.globs.any (fun g => minimatch relPath g || minimatch base g)) := by
    rw [matchRules_eq_filter, hpred]
  have hsub : (matchRules relPath base rules).Sublist rules := by
    rw [hfe]
    exact List.filter_sublist _
  have hmem : ∀ r : CursorRule, r ∈ matchRules relPath base rules ↔
      r ∈ rules ∧ (r.alwaysApply = true ∨
        ∃ g ∈ r.globs, minimatch relPath g = true ∨ minimatch base g = true) := by
    intro r
    rw [hfe]
    simp [List.mem_filter, List.any_eq_true]
  refine ⟨hfe, hsub, fun r => hsub.count_le r, hmem, ?_⟩
  intro r hr hfalse hglobs
  rcases (hmem r).mp hr with ⟨-, h | ⟨g, hg, -⟩⟩
  · rw [hfalse] at h
    exact Bool.false_ne_true h
  · rw [hglobs] at hg
    exact List.not_mem_nil g hg

/-- Witness for C1 at the three-rule scenario of the testable
properties, target src/components/Button.tsx. -/
theorem C1_matcher_characterization_witness :
    (matchRules "src/components/Button.tsx" "Button.tsx"
      [⟨"typescript.mdc", "TypeScript rules", ["*.ts", "*.tsx"], false, "ts"⟩,
        ⟨"global.mdc", "Global rules", [], true, "g"⟩,
        ⟨"react.mdc", "React rules",
          ["**/components/**/*.tsx", "**/pages/**/*.tsx"], false, "r"⟩] =
      List.filter
        (fun r => r.alwaysApply ||
          r.globs.any (fun g =>
            minimatch "src/components/Button.tsx" g || minimatch "Button.tsx" g))
        [⟨"typescript.mdc", "TypeScript rules", ["*.ts", "*.tsx"], false, "ts"⟩,
          ⟨"global.mdc", "Global rules", [], true, "g"⟩,
          ⟨"react.mdc", "React rules",
            ["**/components/**/*.tsx", "**/pages/**/*.tsx"], false, "r"⟩]) ∧
    matchRules "src/components/Button.tsx" "Button.tsx"
      [⟨"typescript.mdc", "TypeScript rules", ["*.ts", "*.tsx"], false, "ts"⟩,
        ⟨"global.mdc", "Global rules", [], true, "g"⟩,
        ⟨"react.mdc", "React rules",
          ["**/components/**/*.tsx", "**/pages/**/*.tsx"], false, "r"⟩] =
      [⟨"typescript.mdc", "TypeScript rules", ["*.ts", "*.tsx"], false, "ts"⟩,
        ⟨"global.mdc", "Global rules", [], true, "g"⟩,
        ⟨"react.mdc", "React rules",
          ["**/components/**/*.tsx", "**/pages/**/*.tsx"], false, "r"⟩] :=
  ⟨(C1_matcher_characterization _
      "/test/project/src/components/Button.tsx" "/test/project" "/cwd"
      "src/components/Button.tsx" "Button.tsx" (by decide) (by decide)).1,
    by decide⟩

/-- Assignment followed by lookup of the same key yields the new value. -/
lemma cacheGet_set_self {α : Type} (c : Cache α) (k : String) (v : α) :
    cacheGet (cacheSet c k v) k = some v := by
  induction c with
  | nil => simp [cacheSet, cacheGet, List.find?]
  | cons p rest ih =>
    by_cases h : p.1 = k
    · simp [cacheSet, h, cacheGet, List.find?]
    · simp only [cacheSet, h, if_false]
      simpa [cacheGet, List.find?, h] using ih

/-- The loadRules loop splits the mdc entries into the records of the
successful reads and one failure message per failed read. -/
lemma processRuleFiles_spec (fs : FS) (dir : String) (l : List String) :
    processRuleFiles fs dir l =
      (l.filterMap (fun f =>
         match fs.readFile (joinPath dir f) with
         | Except.ok c => some (mkCursorRule f c)
         | Except.error _ => none),
       l.filterMap (fun f =>
         match fs.readFile (joinPath dir f) with
         | Except.ok _ => none
         | Except.error e =>
           some ("Error reading rule file " ++ f ++ ": " ++ e))) := by
  induction l with
  | nil => rfl
  | cons f rest ih =>
    simp only [processRuleFiles, ih, List.filterMap_cons]
    cases h : fs.readFile (joinPath dir f) <;> simp [h]

/-- C2: an unlistable rules directory makes loadRules fail wholesale with
zero records, the error flag set and the whole cache untouched; a
listable directory makes the resulting record list unconditionally
replace the cache entry for the root, so even an all-failed batch caches
a (now empty) list. -/
theorem C2_load_replaces_cache (fs : FS) (cache : RulesCache)
    (projectRoot cwd rootDir : String)
    (hroot : rootDir = if projectRoot = "" then cwd else projectRoot) :
    (fs.readdir (rulesDirOf rootDir) = none →
      (loadRules fs cache projectRoot cwd).1.rules = [] ∧
      (loadRules fs cache projectRoot cwd).1.error = true ∧
      (loadRules fs cache projectRoot cwd).2 = cache) ∧
    (∀ files : List String, fs.readdir (rulesDirOf rootDir) = some files →
      (loadRules fs cache projectRoot cwd).1.error = false ∧
      (loadRules fs cache projectRoot cwd).2 =
        cacheSet cache rootDir (loadRules fs cache projectRoot cwd).1.rules ∧
      cacheGet (loadRules fs cache projectRoot cwd).2 rootDir =
        some (loadRules fs cache projectRoot cwd).1.rules) := by
  subst hroot
  constructor
  · intro h
    simp [loadRules, h]
  · intro files h
    refine ⟨?_, ?_, ?_⟩ <;> simp [loadRules, h, cacheGet_set_self]

/-- Witness for C2: a missing directory leaves a prior cache entry in
place; an all-failed batch replaces the entry with the empty list. -/
theorem C2_load_replaces_cache_witness :
    ((loadRules fsMissing prevCache "/test/project" "/cwd").1.rules = [] ∧
      (loadRules fsMissing prevCache "/test/project" "/cwd").1.error = true ∧
      (loadRules fsMissing prevCache "/test/project" "/cwd").2 = prevCache) ∧
    ((loadRules fsAllFail prevCache "/test/project" "/cwd").1.error = false ∧
      (loadRules fsAllFail prevCache "/test/project" "/cwd").2 =
        cacheSet prevCache "/test/project"
          (loadRules fsAllFail prevCache "/test/project" "/cwd").1.rules ∧
      cacheGet (loadRules fsAllFail prevCache "/test/project" "/cwd").2
          "/test/project" =
        some (loadRules fsAllFail prevCache "/test/project" "/cwd").1.rules) ∧
    cacheGet (loadRules fsAllFail prevCache "/test/project" "/cwd").2
        "/test/project" = some [] :=
  ⟨(C2_load_replaces_cache fsMissing prevCache "/test/project" "/cwd"
      "/test/project" (by decide)).1 rfl,
    (C2_load_replaces_cache fsAllFail prevCache "/test/project" "/cwd"
      "/test/project" (by decide)).2 ["bad.mdc"] rfl,
    by decide⟩

/-- C3: in every batch load over a listable directory, each failing file
contributes exactly one entry to the per-file failure list and is
excluded from the record list, the successfully parsed files all appear
as records, and the overall error flag is not set. -/
theorem C3_per_file_failures_localized (fs : FS) (cache : RulesCache)
    (projectRoot cwd rootDir : String) (files : List String)
    (hroot : rootDir = if projectRoot = "" then cwd else projectRoot)
    (h : fs.readdir (rulesDirOf rootDir) = some files) :
    (loadRules fs cache projectRoot cwd).1.error = false ∧
    (loadRules fs cache projectRoot cwd).1.rules =
      (files.filter (fun f => extname f = ".mdc")).filterMap (fun f =>
        match fs.readFile (joinPath (rulesDirOf rootDir) f) with
        | Except.ok c => some (mkCursorRule f c)
        | Except.error _ => none) ∧
    (loadRules fs cache projectRoot cwd).1.fileErrors =
      (files.filter (fun f => extname f = ".mdc")).filterMap (fun f =>
        match fs.readFile (joinPath (rulesDirOf rootDir) f) with
        | Except.ok _ => none
        | Except.error e =>
          some ("Error reading rule file " ++ f ++ ": " ++ e)) := by
  subst hroot
  refine ⟨?_, ?_, ?_⟩ <;> simp [loadRules, h, processRuleFiles_spec]

/-- Witness for C3: one unreadable file among two readable ones yields
two records, one failure entry and no operation-level failure. -/
theorem C3_per_file_failures_localized_witness :
    ((loadRules fsPartial [] "/test/project" "/cwd").1.error = false ∧
      (loadRules fsPartial [] "/test/project" "/cwd").1.rules =
        (["good.mdc", "bad.mdc", "another.mdc", "ignored.txt"].filter
          (fun f => extname f = ".mdc")).filterMap (fun f =>
          match fsPartial.readFile (joinPath (rulesDirOf "/test/project") f) with
          | Except.ok c => some (mkCursorRule f c)
          | Except.error _ => none) ∧
      (loadRules fsPartial [] "/test/project" "/cwd").1.fileErrors =
        (["good.mdc", "bad.mdc", "another.mdc", "ignored.txt"].filter
          (fun f => extname f = ".mdc")).filterMap (fun f =>
          match fsPartial.readFile (joinPath (rulesDirOf "/test/project") f) with
          | Except.ok _ => none
          | Except.error e =>
            some ("Error reading rule file " ++ f ++ ": " ++ e))) ∧
    (loadRules fsPartial [] "/test/project" "/cwd").1.rules.length = 2 ∧
    (loadRules fsPartial [] "/test/project" "/cwd").1.fileErrors =
      ["Error reading rule file bad.mdc: Permission denied"] :=
  ⟨C3_per_file_failures_localized fsPartial [] "/test/project" "/cwd"
      "/test/project" ["good.mdc", "bad.mdc", "another.mdc", "ignored.txt"]
      (by decide) rfl,
    by decide, by decide⟩

/-- getRulesForFile laid out as one three-way branch on the effective
rule list and the matcher result. -/
lemma getRulesForFile_cases (fs : FS) (cache : RulesCache)
    (filePath projectRoot cwd : String) :
    getRulesForFile fs cache filePath projectRoot cwd =
      (let rootDir := if projectRoot = "" then cwd else projectRoot
       let cache1 :=
         if cacheHas cache rootDir then cache
         else (loadRules fs cache rootDir cwd).2
       let rules := (cacheGet cache1 rootDir).getD []
       let relPath := relativePath cwd rootDir (resolvePath cwd filePath)
       let base := basename filePath
       let applicable := matchRules relPath base rules
       if rules.isEmpty then
         (⟨[], "No Cursor rules found. Run load_cursor_rules first.", true⟩,
           cache1)
       else if applicable.isEmpty then
         (⟨[], "No Cursor rules apply to " ++ filePath ++ " (" ++ relPath ++ ")",
            false⟩, cache1)
       else
         (⟨applicable,
            "Applicable Cursor rules for " ++ filePath ++ ":\n\n" ++
              String.intercalate "\n\n---\n\n" (applicable.map ruleText),
            false⟩, cache1)) := by
  rfl

/-- C4 as stated is false: an existing cache entry holding zero rules
(rules loaded, nothing to match) still produces the error-flagged
outcome, and even a successful implicit load of an empty directory
produces it, so the error outcome is not confined to a failed implicit
load with no cached data. -/
theorem C4_claim_counterexample :
    cacheHas emptyEntryCache "/p" = true ∧
    (getRulesForFile fsMissing emptyEntryCache "/p/a.ts" "/p" "/cwd").1.error
      = true ∧
    (getRulesForFile fsMissing emptyEntryCache "/p/a.ts" "/p" "/cwd").1.message
      = "No Cursor rules found. Run load_cursor_rules first." ∧
    (loadRules fsEmptyDir [] "/p" "/cwd").1.error = false ∧
    (getRulesForFile fsEmptyDir [] "/p/a.ts" "/p" "/cwd").1.error = true := by
  decide

/-- C4 amended: the error-flagged outcome occurs exactly when the
effective cached rule list for the root, after the implicit load attempt
when no entry exists, is empty — whether because no cached data exists
and the implicit load failed, or because the cached or just-loaded list
has zero records; when the effective list is nonempty and no rule
matches, the result is empty with no error flag. -/
theorem C4_empty_outcomes (fs : FS) (cache : RulesCache)
    (filePath projectRoot cwd rootDir : String) (cache1 : RulesCache)
    (rules : List CursorRule)
    (hroot : rootDir = if projectRoot = "" then cwd else projectRoot)
    (hc1 : cache1 =
      if cacheHas cache rootDir then cache
      else (loadRules fs cache rootDir cwd).2)
    (hrules : rules = (cacheGet cache1 rootDir).getD []) :
    ((getRulesForFile fs cache filePath projectRoot cwd).1.error = true ↔
      rules = []) ∧
    (rules = [] →
      (getRulesForFile fs cache filePath projectRoot cwd).1.rules = [] ∧
      (getRulesForFile fs cache filePath projectRoot cwd).1.message =
        "No Cursor rules found. Run load_cursor_rules first.") ∧
    (rules ≠ [] →
      (getRulesForFile fs cache filePath projectRoot cwd).1.error = false ∧
      (getRulesForFile fs cache filePath projectRoot cwd).1.rules =
        matchRules (relativePath cwd rootDir (resolvePath cwd filePath))
          (basename filePath) rules) := by
  rw [getRulesForFile_cases]
  simp only [← hroot, ← hc1, ← hrules]
  cases hr : rules with
  | nil => simp
  | cons r rs =>
    by_cases ha :
        matchRules (relativePath cwd rootDir (resolvePath cwd filePath))
          (basename filePath) (r :: rs) = []
    · simp [ha]
    · simp [ha, List.isEmpty_iff]

/-- Witness for the amended C4: a cached nonempty list with no matching
rule yields the empty, unflagged outcome; a cached empty list yields the
flagged outcome. -/
theorem C4_empty_outcomes_witness :
    (((getRulesForFile fsMissing tsCache "/p/style.css" "/p" "/cwd").1.error
        = true ↔ [tsOnlyRule] = []) ∧
      ((getRulesForFile fsMissing tsCache "/p/style.css" "/p" "/cwd").1.error
        = false ∧
       (getRulesForFile fsMissing tsCache "/p/style.css" "/p" "/cwd").1.rules =
        matchRules (relativePath "/cwd" "/p" (resolvePath "/cwd" "/p/style.css"))
          (basename "/p/style.css") [tsOnlyRule])) ∧
    (getRulesForFile fsMissing tsCache "/p/style.css" "/p" "/cwd").1.rules
      = [] ∧
    ((getRulesForFile fsMissing emptyEntryCache "/p/a.ts" "/p" "/cwd").1.rules
        = [] ∧
      (getRulesForFile fsMissing emptyEntryCache "/p/a.ts" "/p" "/cwd").1.message
        = "No Cursor rules found. Run load_cursor_rules first.") :=
  ⟨⟨(C4_empty_outcomes fsMissing tsCache "/p/style.css" "/p" "/cwd" "/p"
        tsCache [tsOnlyRule] (by decide) (by decide) (by decide)).1,
      (C4_empty_outcomes fsMissing tsCache "/p/style.css" "/p" "/cwd" "/p"
        tsCache [tsOnlyRule] (by decide) (by decide) (by decide)).2.2
        (by decide)⟩,
    by decide,
    (C4_empty_outcomes fsMissing emptyEntryCache "/p/a.ts" "/p" "/cwd" "/p"
        emptyEntryCache [] (by decide) (by decide) (by decide)).2.1 rfl⟩

/-- C7 as stated is false: the source computes the field as the metadata
value or-else false, so the truthy non-boolean string value yes yields a
truthy flag instead of the claimed default false. -/
theorem C7_claim_counterexample :
    fmLookup [("alwaysApply", FMValue.str "yes")] "alwaysApply" =
      some (FMValue.str "yes") ∧
    FMValue.str "yes" ≠ FMValue.bool true ∧
    FMValue.str "yes" ≠ FMValue.bool false ∧
    normAlwaysApply [("alwaysApply", FMValue.str "yes")] = true ∧
    (mkCursorRule "r.mdc" "---\nalwaysApply: yes\n---\nBody").alwaysApply
      = true := by
  decide

/-- C7 amended: the constructed record's alwaysApply flag is the
JavaScript truthiness of the metadata value, defaulting to false when
the value is absent or falsy (boolean false or the empty string); a
boolean value is kept as is, while a truthy non-boolean value makes the
flag true rather than the default. -/
theorem C7_always_apply_truthiness (fm : Frontmatter) (file content : String) :
    (mkCursorRule file content).alwaysApply =
      normAlwaysApply (parseFrontmatter content).frontmatter ∧
    normAlwaysApply fm =
      (match fmLookup fm "alwaysApply" with
       | none => false
       | some v => fmTruthy v) ∧
    (fmLookup fm "alwaysApply" = none → normAlwaysApply fm = false) ∧
    (fmLookup fm "alwaysApply" = some (FMValue.bool false) →
      normAlwaysApply fm = false) ∧
    (fmLookup fm "alwaysApply" = some (FMValue.str "") →
      normAlwaysApply fm = false) ∧
    (∀ b : Bool, fmLookup fm "alwaysApply" = some (FMValue.bool b) →
      normAlwaysApply fm = b) := by
  refine ⟨rfl, ?_, ?_, ?_, ?_, ?_⟩
  · cases h : fmLookup fm "alwaysApply" <;> simp [normAlwaysApply, h]
  · intro h
    simp [normAlwaysApply, h]
  · intro h
    simp [normAlwaysApply, h, fmTruthy]
  · intro h
    simp [normAlwaysApply, h, fmTruthy]
  · intro b h
    simp [normAlwaysApply, h, fmTruthy]

/-- Witness for the amended C7 at the three falsy shapes. -/
theorem C7_always_apply_truthiness_witness :
    normAlwaysApply [] = false ∧
    normAlwaysApply [("alwaysApply", FMValue.bool false)] = false ∧
    normAlwaysApply [("alwaysApply", FMValue.str "")] = false ∧
    normAlwaysApply [("alwaysApply", FMValue.bool true)] = true :=
  ⟨(C7_always_apply_truthiness [] "f" "c").2.2.1 (by decide),
    (C7_always_apply_truthiness [("alwaysApply", FMValue.bool false)] "f"
      "c").2.2.2.1 (by decide),
    (C7_always_apply_truthiness [("alwaysApply", FMValue.str "")] "f"
      "c").2.2.2.2.1 (by decide),
    (C7_always_apply_truthiness [("alwaysApply", FMValue.bool true)] "f"
      "c").2.2.2.2.2 true (by decide)⟩

/-- Lookup on a nonempty map checks the head entry first. -/
lemma cacheGet_cons {α : Type} (p : String × α) (rest : Cache α) (k2 : String) :
    cacheGet (p :: rest) k2 =
      if p.1 = k2 then some p.2 else cacheGet rest k2 := by
  by_cases h : p.1 = k2 <;> simp [cacheGet, List.find?, h]

/-- Deletion on a nonempty map drops or keeps the head entry. -/
lemma cacheDelete_cons {α : Type} (p : String × α) (rest : Cache α)
    (k : String) :
    cacheDelete (p :: rest) k =
      if p.1 = k then cacheDelete rest k else p :: cacheDelete rest k := by
  by_cases h : p.1 = k <;> simp [cacheDelete, List.filter_cons, h]

/-- Deleting a key removes its entry. -/
lemma cacheGet_delete_self {α : Type} (c : Cache α) (k : String) :
    cacheGet (cacheDelete c k) k = none := by
  induction c with
  | nil => rfl
  | cons p rest ih =>
    rw [cacheDelete_cons]
    by_cases hp : p.1 = k
    · rw [if_pos hp]; exact ih
    · rw [if_neg hp, cacheGet_cons, if_neg hp]; exact ih

/-- Deleting one key leaves every other key's lookup unchanged. -/
lemma cacheGet_delete_ne {α : Type} (c : Cache α) (k k2 : String)
    (h : k2 ≠ k) :
    cacheGet (cacheDelete c k) k2 = cacheGet c k2 := by
  induction c with
  | nil => rfl
  | cons p rest ih =>
    rw [cacheDelete_cons]
    by_cases hp : p.1 = k
    · have hp2 : ¬(p.1 = k2) := fun hEq => h (hEq ▸ hp)
      rw [if_pos hp, ih, cacheGet_cons, if_neg hp2]
    · rw [if_neg hp, cacheGet_cons, cacheGet_cons]
      by_cases hp2 : p.1 = k2
      · rw [if_pos hp2, if_pos hp2]
      · rw [if_neg hp2, if_neg hp2, ih]

/-- Every key of the cache is a truthy (nonempty) root string.  This is
an invariant of all reachable service states: entries are only ever
created under the root default projectRoot or-else cwd, which is nonempty
whenever the working directory is. -/
def cacheKeysTruthy {α : Type} (c : Cache α) : Prop :=
  ∀ p ∈ c, p.1 ≠ ""

/-- Assignment under a truthy key preserves the key invariant. -/
lemma cacheKeysTruthy_set {α : Type} (c : Cache α) (k : String) (v : α)
    (hk : k ≠ "") (hc : cacheKeysTruthy c) :
    cacheKeysTruthy (cacheSet c k v) := by
  induction c with
  | nil =>
    intro p hp
    simp only [cacheSet, List.mem_singleton] at hp
    rw [hp]
    exact hk
  | cons q rest ih =>
    have hq : q.1 ≠ "" := hc q (List.mem_cons_self q rest)
    have hrest : cacheKeysTruthy rest :=
      fun p hp => hc p (List.mem_cons_of_mem q hp)
    intro p hp
    by_cases hqk : q.1 = k
    · simp only [cacheSet, hqk, if_true, List.mem_cons] at hp
      rcases hp with hp | hp
      · rw [hp]; exact hk
      · exact hrest p hp
    · simp only [cacheSet, hqk, if_false, List.mem_cons] at hp
      rcases hp with hp | hp
      · rw [hp]; exact hq
      · exact ih hrest p hp

/-- loadRules only ever inserts the nonempty effective root as a key, so
it preserves the key invariant whenever the working directory is a
nonempty string. -/
lemma loadRules_preserves_keysTruthy (fs : FS) (cache : RulesCache)
    (projectRoot cwd : String) (hcwd : cwd ≠ "")
    (hc : cacheKeysTruthy cache) :
    cacheKeysTruthy (loadRules fs cache projectRoot cwd).2 := by
  have hroot : (if projectRoot = "" then cwd else projectRoot) ≠ "" := by
    by_cases h : projectRoot = "" <;> simp [h, hcwd]
  cases hdir :
      fs.readdir (rulesDirOf (if projectRoot = "" then cwd else projectRoot)) with
  | none => simpa [loadRules, hdir] using hc
  | some files =>
    simp only [loadRules, hdir]
    exact cacheKeysTruthy_set _ _ _ hroot hc

/-- C8: for distinct roots R1 and R2 with cached entries — entries exist
only for truthy keys, see cacheKeysTruthy and its preservation lemmas —
clearing the cache for R1 removes exactly R1's entry, leaving every other
root's entry unchanged, and clearing with no root specified removes all
entries. -/
theorem C8_clear_cache_frame {α : Type} (c : Cache α) (R1 R2 : String)
    (hkeys : cacheKeysTruthy c) (h1 : cacheHas c R1 = true)
    (h2 : cacheHas c R2 = true) (hne : R1 ≠ R2) :
    cacheGet (clearCache c R1) R1 = none ∧
    cacheGet (clearCache c R1) R2 = cacheGet c R2 ∧
    (∀ R : String, R ≠ R1 → cacheGet (clearCache c R1) R = cacheGet c R) ∧
    clearCache c "" = [] := by
  have hR1 : R1 ≠ "" := by
    simp only [cacheHas, cacheGet] at h1
    cases hf : c.find? (fun p => p.1 = R1) with
    | none => rw [hf] at h1; simp at h1
    | some p =>
      have hpk : p.1 = R1 := by
        have := List.find?_some hf
        simpa using this
      have hpm : p ∈ c := List.mem_of_find?_eq_some hf
      exact hpk ▸ hkeys p hpm
  have hclear : clearCache c R1 = cacheDelete c R1 := by
    simp [clearCache, hR1]
  refine ⟨?_, ?_, ?_, by simp [clearCache]⟩
  · rw [hclear]; exact cacheGet_delete_self c R1
  · rw [hclear]; exact cacheGet_delete_ne c R1 R2 (fun h => hne h.symm)
  · intro R hR
    rw [hclear]; exact cacheGet_delete_ne c R1 R hR

/-- Witness for C8 on a two-entry cache. -/
theorem C8_clear_cache_frame_witness :
    cacheGet (clearCache [("/a", [oldRule]), ("/b", ([] : List CursorRule))]
      "/a") "/a" = none ∧
    cacheGet (clearCache [("/a", [oldRule]), ("/b", ([] : List CursorRule))]
        "/a") "/b" =
      cacheGet [("/a", [oldRule]), ("/b", ([] : List CursorRule))] "/b" ∧
    clearCache [("/a", [oldRule]), ("/b", ([] : List CursorRule))] "" = [] :=
  ⟨(C8_clear_cache_frame [("/a", [oldRule]), ("/b", [])] "/a" "/b"
      (by unfold cacheKeysTruthy; decide) (by decide) (by decide)
      (by decide)).1,
    (C8_clear_cache_frame [("/a", [oldRule]), ("/b", [])] "/a" "/b"
      (by unfold cacheKeysTruthy; decide) (by decide) (by decide)
      (by decide)).2.1,
    (C8_clear_cache_frame [("/a", [oldRule]), ("/b", [])] "/a" "/b"
      (by unfold cacheKeysTruthy; decide) (by decide) (by decide)
      (by decide)).2.2.2⟩

/-- A string made of a fixed front and an arbitrary tail differs from
any string whose first characters already differ from the front. -/
lemma append_take_ne (a e b : String) (n : Nat) (hn : n ≤ a.toList.length)
    (h : a.toList.take n ≠ b.toList.take n) : a ++ e ≠ b := by
  intro hEq
  apply h
  have hdata : a.toList ++ e.toList = b.toList := by
    rw [← hEq]
    rfl
  rw [← hdata, List.take_append_of_le_length hn]

/-- loadAgents resolves its root argument once, so passing the resolved
root gives the same outcome. -/
lemma loadAgents_rootDir_eq (fs : AgentFS) (cache : AgentsCache)
    (projectRoot cwd : String) :
    loadAgents fs cache projectRoot cwd =
      loadAgents fs cache (if projectRoot = "" then cwd else projectRoot)
        cwd := by
  by_cases hp : projectRoot = ""
  · subst hp
    simp [loadAgents]
  · simp [hp]

/-- C9: a non-error loadAgents always leaves a cache entry for the
effective root; consequently the branch of getAgents that reports the
no-document message after a non-error implicit load is unreachable —
getAgents never yields that message, and its error flag is set only when
no entry was cached and the underlying load failed. -/
theorem C9_get_agents_unreachable_branch (fs : AgentFS) (cache : AgentsCache)
    (projectRoot cwd rootDir : String)
    (hroot : rootDir = if projectRoot = "" then cwd else projectRoot) :
    ((loadAgents fs cache projectRoot cwd).1.error = false →
      cacheHas (loadAgents fs cache projectRoot cwd).2 rootDir = true) ∧
    (getAgents fs cache projectRoot cwd).1.message ≠
      "No AGENTS.md found. Run load_agents first." ∧
    ((getAgents fs cache projectRoot cwd).1.error = true →
      cacheHas cache rootDir = false ∧
      (loadAgents fs cache rootDir cwd).1.error = true) := by
  have hidem : (if rootDir = "" then cwd else rootDir) = rootDir := by
    rw [hroot]
    by_cases hp : projectRoot = "" <;> simp [hp]
  have hLeq : loadAgents fs cache projectRoot cwd =
      loadAgents fs cache rootDir cwd := by
    rw [hroot]
    exact loadAgents_rootDir_eq fs cache projectRoot cwd
  have hG : getAgents fs cache projectRoot cwd =
      (if cacheHas cache rootDir then renderAgents cache rootDir
       else
         if (loadAgents fs cache rootDir cwd).1.error then
           (⟨none, (loadAgents fs cache rootDir cwd).1.message, true⟩,
             (loadAgents fs cache rootDir cwd).2)
         else renderAgents (loadAgents fs cache rootDir cwd).2 rootDir) := by
    rw [hroot]
    rfl
  have hc1 : (loadAgents fs cache rootDir cwd).1.error = false →
      cacheHas (loadAgents fs cache rootDir cwd).2 rootDir = true := by
    intro herr
    by_cases hacc : fs.access (joinPath rootDir "AGENTS.md") = true
    · cases hread : fs.readFile (joinPath rootDir "AGENTS.md") with
      | error e =>
        exfalso
        simp [loadAgents, hidem, hacc, hread] at herr
      | ok content =>
        simp [loadAgents, hidem, hacc, hread, cacheHas, cacheGet_set_self]
    · exfalso
      simp only [Bool.not_eq_true] at hacc
      simp [loadAgents, hidem, hacc] at herr
  refine ⟨?_, ?_, ?_⟩
  · intro herr
    rw [hLeq] at herr ⊢
    exact hc1 herr
  · -- the no-document message never escapes getAgents
    rw [hG]
    by_cases hhas : cacheHas cache rootDir = true
    · obtain ⟨a, ha⟩ := Option.isSome_iff_exists.mp hhas
      simp only [hhas, if_true, renderAgents, ha]
      exact append_take_ne _ _ _ 1 (by decide) (by decide)
    · simp only [Bool.not_eq_true] at hhas
      simp only [hhas, Bool.false_eq_true, if_false]
      by_cases herr : (loadAgents fs cache rootDir cwd).1.error = true
      · simp only [herr, if_true]
        by_cases hacc : fs.access (joinPath rootDir "AGENTS.md") = true
        · cases hread : fs.readFile (joinPath rootDir "AGENTS.md") with
          | error e =>
            simp only [loadAgents, hidem, hacc, if_true, hread]
            exact append_take_ne _ _ _ 1 (by decide) (by decide)
          | ok content =>
            exfalso
            simp [loadAgents, hidem, hacc, hread] at herr
        · simp only [Bool.not_eq_true] at hacc
          simp only [loadAgents, hidem, hacc]
          exact append_take_ne _ _ _ 15 (by decide) (by decide)
      · simp only [Bool.not_eq_true] at herr
        simp only [herr, Bool.false_eq_true, if_false]
        have hhas2 := hc1 herr
        obtain ⟨a, ha⟩ := Option.isSome_iff_exists.mp hhas2
        simp only [renderAgents, ha]
        exact append_take_ne _ _ _ 1 (by decide) (by decide)
  · -- the error flag only reports a failed load over an empty cache
    rw [hG]
    by_cases hhas : cacheHas cache rootDir = true
    · obtain ⟨a, ha⟩ := Option.isSome_iff_exists.mp hhas
      simp [hhas, renderAgents, ha]
    · have hhasf : cacheHas cache rootDir = false := by
        simpa [Bool.not_eq_true] using hhas
      rw [if_neg hhas]
      by_cases herr : (loadAgents fs cache rootDir cwd).1.error = true
      · rw [if_pos herr]
        intro _
        exact ⟨hhasf, herr⟩
      · rw [if_neg herr]
        have herrf : (loadAgents fs cache rootDir cwd).1.error = false := by
          simpa [Bool.not_eq_true] using herr
        have hhas2 := hc1 herrf
        obtain ⟨a, ha⟩ := Option.isSome_iff_exists.mp hhas2
        simp [renderAgents, ha]

/-- Witness for C9: a successful load caches the document; getAgents on
a readable document avoids the no-document message; getAgents on a
missing document reports the failed load over the empty cache. -/
theorem C9_get_agents_unreachable_branch_witness :
    cacheHas (loadAgents afsOk [] "/p" "/cwd").2 "/p" = true ∧
    (getAgents afsOk [] "/p" "/cwd").1.message ≠
      "No AGENTS.md found. Run load_agents first." ∧
    (cacheHas ([] : AgentsCache) "/p" = false ∧
      (loadAgents afsMissing [] "/p" "/cwd").1.error = true) :=
  ⟨(C9_get_agents_unreachable_branch afsOk [] "/p" "/cwd" "/p"
      (by decide)).1 rfl,
    (C9_get_agents_unreachable_branch afsOk [] "/p" "/cwd" "/p"
      (by decide)).2.1,
    (C9_get_agents_unreachable_branch afsMissing [] "/p" "/cwd" "/p"
      (by decide)).2.2 (by decide)⟩

/-- C10: whenever the decoded metadata maps description to the empty
string — present but falsy, rather than absent — the constructed rule
record's description is the fixed default No description, and the
constructed agent document's description is the fixed default Agent
rules and guidelines: the default applies to any falsy value, not only
to absence. -/
theorem C10_description_default_on_empty (fm : Frontmatter)
    (file content : String)
    (h : fmLookup fm "description" = some (FMValue.str "")) :
    normDescription fm "No description" = "No description" ∧
    normDescription fm "Agent rules and guidelines" =
      "Agent rules and guidelines" ∧
    ((parseFrontmatter content).frontmatter = fm →
      (mkCursorRule file content).description = "No description" ∧
      (mkAgentRule content).description = "Agent rules and guidelines") := by
  have hdflt : ∀ d : String, normDescription fm d = d := by
    intro d
    simp [normDescription, h, fmTruthy]
  refine ⟨hdflt _, hdflt _, ?_⟩
  intro hp
  constructor
  · show normDescription (parseFrontmatter content).frontmatter
        "No description" = "No description"
    rw [hp]
    exact hdflt _
  · show normDescription (parseFrontmatter content).frontmatter
        "Agent rules and guidelines" = "Agent rules and guidelines"
    rw [hp]
    exact hdflt _

/-- Witness for C10 at a document whose header carries an empty
description value. -/
theorem C10_description_default_on_empty_witness :
    (mkCursorRule "r.mdc" "---\ndescription:\n---\nBody").description =
      "No description" ∧
    (mkAgentRule "---\ndescription:\n---\nBody").description =
      "Agent rules and guidelines" :=
  (C10_description_default_on_empty
      (parseFrontmatter "---\ndescription:\n---\nBody").frontmatter
      "r.mdc" "---\ndescription:\n---\nBody" (by decide)).2.2 rfl

end AgentRules




